import Mathlib

/-! # Verification of the csf-prf geometry pipeline

Shallow embedding of the core of the csf-prf repository:

* `split_inner_polygons` (src/csf-prf/engines/CompositeSourceCreatorEngine.py,
  lines 238-284): decomposing a flattened, sentinel-delimited polygon vertex
  stream into one outer ring and a list of inner rings;
* `get_enc_geometries` (scripts/enc_features_test.py, lines 31-51): normalizing
  raw chart records into Point / LineString / Polygon collections, exploding
  MultiPoint sounding clusters;
* `perform_spatial_filter` (scripts/enc_features_test.py, lines 98-196):
  partitioning each collection into passed/failed against a sheet boundary.

Machine reals/fixed geometry engines are irrelevant to the claims: coordinates
are modelled as integer pairs, and the external arcpy intersection test is an
abstract boolean predicate argument (the spec, section 6, treats the boundary
reference's spatial predicate as an external collaborator).
-/

namespace CsfPrf

/-- A 2-D vertex (an arcpy `Point` / GeoJSON coordinate pair). -/
abbrev Pt := Int × Int

/-- An attribute mapping: ordered key/value pairs of a feature's property row.
Values are opaque to every claim; integers suffice. -/
abbrev Attrs := List (String × Int)

/-- One decomposed ring as appended by `split_inner_polygons`:
`{'attributes': attributes, 'geometry': ...}`.  The geometry is a slice of the
flattened part stream, so its elements keep the `Option` wrapping (`none` is
the sentinel; it never occurs strictly inside a kept slice). -/
structure RingFeature where
  attributes : Attrs
  geometry : List (Option Pt)
deriving DecidableEq, Repr

/-- Python slice `l[a:b]` for the (non-negative, `b ≤ len`) index ranges used
by `split_inner_polygons`. -/
def pySlice (l : List (Option Pt)) (a b : Nat) : List (Option Pt) :=
  (l.drop a).take (b - a)

/-- Modelled from the spec: `Engine.reverse` lives in engines/Engine.py, which
is not part of the given source tree; spec section 4.3 (steps 3-5) and the
glossary use it as exact sequence reversal of a ring's vertex order. -/
def reverse (l : List (Option Pt)) : List (Option Pt) := l.reverse

/-- `[i for i, point in enumerate(geometry) if point is None]`
(CompositeSourceCreatorEngine.py, line 256). -/
def none_indexes (geometry : List (Option Pt)) : List Nat :=
  (geometry.enum.filter (fun ip => ip.2.isNone)).map Prod.fst

/-- The `for i, (current, next) in enumerate(zip(none_indexes[:-1],
none_indexes[1:]))` loop of `split_inner_polygons` (lines 265-278), threading
the growing `outer_features` / `inner_features` accumulators.  `n` is
`len(none_indexes)`. -/
def splitPartLoop (attributes : Attrs) (geometry : List (Option Pt)) (n : Nat) :
    List (Nat × Nat × Nat) → List RingFeature × List RingFeature →
      List RingFeature × List RingFeature
  | [], acc => acc
  | (i, current, next) :: rest, acc =>
      splitPartLoop attributes geometry n rest <|
        if i = 0 then
          (acc.1 ++ [⟨attributes, pySlice geometry 0 current⟩],
           acc.2 ++ [⟨attributes, reverse (pySlice geometry (current + 1) next)⟩])
        else if i = n - 2 then
          (acc.1,
           acc.2 ++ [⟨attributes, reverse (pySlice geometry (current + 1) next)⟩]
                 ++ [⟨attributes, reverse (pySlice geometry (next + 1) geometry.length)⟩])
        else
          (acc.1, acc.2 ++ [⟨attributes, reverse (pySlice geometry (current + 1) next)⟩])

/-- One iteration of the `for geometry in row_geom` body of
`split_inner_polygons` (lines 253-282): the outer-feature and inner-feature
contributions of a single part stream, in append order.  `geometry.contains
none` is Python's `None in geometry`. -/
def splitPart (attributes : Attrs) (geometry : List (Option Pt)) :
    List RingFeature × List RingFeature :=
  if geometry.contains none then
    let idxs := none_indexes geometry
    if idxs.length = 1 then
      ([⟨attributes, pySlice geometry 0 (idxs.headD 0)⟩],
       [⟨attributes, reverse (pySlice geometry (idxs.headD 0 + 1) geometry.length)⟩])
    else
      splitPartLoop attributes geometry idxs.length
        ((idxs.dropLast.zip idxs.tail).enum) ([], [])
  else
    ([⟨attributes, geometry⟩], [])

/-- One polygon row of the searched layer: its attribute tuple (`row[1:]`) and
the geometry parts of `row[0]` (`for geometry in row_geom`). -/
structure PolygonRow where
  attributes : Attrs
  parts : List (List (Option Pt))
deriving DecidableEq, Repr

/-- `split_inner_polygons` (lines 238-284) over the rows of a layer, returning
`(outer_features, inner_features)`. -/
def split_inner_polygons (rows : List PolygonRow) :
    List RingFeature × List RingFeature :=
  rows.foldl
    (fun acc row =>
      row.parts.foldl
        (fun acc2 geometry =>
          let fs := splitPart row.attributes geometry
          (acc2.1 ++ fs.1, acc2.2 ++ fs.2))
        acc)
    ([], [])

/-! ### Reference segmentation of a sentinel-delimited stream

To state what the decomposer is supposed to emit without re-using its own
index arithmetic, the stream's segments are recovered by direct recursion:
`ringSegments` splits the stream at every sentinel, so a stream with `k`
sentinels has exactly `k + 1` segments — the outer candidate first, then one
segment per gap. -/

/-- The maximal sentinel-free segments of a stream, in order; splitting on
every `none`.  Always non-empty: a stream with `k` sentinels yields `k + 1`
segments. -/
def ringSegments : List (Option Pt) → List (List (Option Pt))
  | [] => [[]]
  | none :: rest => [] :: ringSegments rest
  | some p :: rest =>
      match ringSegments rest with
      | [] => [[some p]]
      | s :: ss => (some p :: s) :: ss

/-- The segments strictly after the first sentinel, computed from the sentinel
index list: one slice per consecutive index pair, then the suffix after the
last sentinel. -/
def segsAfter (g : List (Option Pt)) : List Nat → List (List (Option Pt))
  | [] => []
  | [i] => [g.drop (i + 1)]
  | i :: j :: rest => pySlice g (i + 1) j :: segsAfter g (j :: rest)

/-- All segments of a stream, computed from `none_indexes`: the prefix before
the first sentinel (the whole stream if there is none), then `segsAfter`. -/
def allSegs (g : List (Option Pt)) : List (List (Option Pt)) :=
  match none_indexes g with
  | [] => [g]
  | i :: rest => pySlice g 0 i :: segsAfter g (i :: rest)

/-! ## Geometry Normalizer: `ENCReaderEngine.get_enc_geometries`
(scripts/enc_features_test.py, lines 31-51) -/

/-- The coordinate payload of a parsed GeoJSON geometry: a single pair
(Point), a vertex list (LineString / MultiPoint), or a ring list (Polygon). -/
inductive CoordsVal where
  | pt : Pt → CoordsVal
  | seq : List Pt → CoordsVal
  | rings : List (List Pt) → CoordsVal
deriving DecidableEq, Repr

/-- A parsed GeoJSON geometry object: its `type` tag and `coordinates`. -/
structure GeoJson where
  gtype : String
  coordinates : CoordsVal
deriving DecidableEq, Repr

/-- One parsed record (`json.loads(feature.ExportToJson())`): the `geometry`
member (possibly JSON null) and the `properties` mapping. -/
structure FeatureJson where
  geometry : Option GeoJson
  properties : Attrs
deriving DecidableEq, Repr

/-- The three per-class feature collections of `self.geometries` (each entry
wraps a record as `{'geojson': feature_json}`; the wrapper is elided). -/
structure Geometries where
  point : List FeatureJson
  lineString : List FeatureJson
  polygon : List FeatureJson
deriving DecidableEq, Repr

/-- `feature_json['geometry']['type'] if feature_json['geometry'] else False`
(line 38).  The falsy outcome (null geometry, or an empty type string) is the
empty string: exactly the values on which every later truthiness test and
string comparison of `get_enc_geometries` is False. -/
def geom_type (f : FeatureJson) : String :=
  match f.geometry with
  | some g => g.gtype
  | none => ""

/-- The member points of a MultiPoint record as iterated by
`for point in feature.geometry()` (line 46). -/
def geometryPts (f : FeatureJson) : List Pt :=
  match f.geometry with
  | some g =>
      match g.coordinates with
      | .seq ps => ps
      | _ => []
  | none => []

/-- `feature_template['geometry']['type'] = 'Point'` (line 45). -/
def setPointType (f : FeatureJson) : FeatureJson :=
  match f.geometry with
  | some g => ⟨some ⟨"Point", g.coordinates⟩, f.properties⟩
  | none => f

/-- `feature_template['geometry']['coordinates'] = [point.GetX(), point.GetY()]`
(line 47). -/
def setPointCoords (f : FeatureJson) (p : Pt) : FeatureJson :=
  match f.geometry with
  | some g => ⟨some ⟨g.gtype, .pt p⟩, f.properties⟩
  | none => f

/-- The MultiPoint branch (lines 42-48).  `feature_template` is parsed once,
then the loop mutates that one dict in place and appends a reference to it for
every member point; once the loop is over, every appended entry therefore
shows the template's final state (type `'Point'`, coordinates of the last
member point).  The fold models the in-place writes, `List.replicate` the
`N` appended references to the single shared dict. -/
def explodeMultiPoint (f : FeatureJson) : List FeatureJson :=
  let pts := geometryPts f
  let finalTemplate := pts.foldl setPointCoords (setPointType f)
  List.replicate pts.length finalTemplate

/-- The per-record body of `get_enc_geometries` (lines 36-51), threading the
collections together with the list of printed `Unknown feature type`
diagnostics.  A record whose `geom_type` is falsy (`""` here) falls through
every branch, including the `if geom_type:` print guard (line 50). -/
def processFeature (st : Geometries × List String) (f : FeatureJson) :
    Geometries × List String :=
  let gt := geom_type f
  if gt = "Point" then
    ({ st.1 with point := st.1.point ++ [f] }, st.2)
  else if gt = "LineString" then
    ({ st.1 with lineString := st.1.lineString ++ [f] }, st.2)
  else if gt = "Polygon" then
    ({ st.1 with polygon := st.1.polygon ++ [f] }, st.2)
  else if gt = "MultiPoint" then
    ({ st.1 with point := st.1.point ++ explodeMultiPoint f }, st.2)
  else if gt ≠ "" then
    (st.1, st.2 ++ ["Unknown feature type: " ++ gt])
  else
    st

/-- `get_enc_geometries` over the flattened record stream of the chart file
(the layer/feature double loop visits records in order), starting from the
empty collections of `__init__`. -/
def get_enc_geometries (records : List FeatureJson) : Geometries × List String :=
  records.foldl processFeature (⟨[], [], []⟩, [])

/-! ## Spatial Classifier: `ENCReaderEngine.perform_spatial_filter`
(scripts/enc_features_test.py, lines 98-196).

arcpy is external; its geometry values are modelled by `ArcGeom` and the
`SelectLayerByLocation(..., 'INTERSECT', sheets_layer)` record test by an
arbitrary boolean predicate `itx` — a selected record is one intersecting at
least one boundary record, `SWITCH_SELECTION` flips to the complement of the
selection within the same layer. -/

/-- An arcpy geometry built by the layer-construction loops: `PointGeometry`
from a coordinate pair, `Polyline` from a vertex array, `Polygon` from a
vertex array. -/
inductive ArcGeom where
  | pointG : Pt → ArcGeom
  | lineG : List Pt → ArcGeom
  | polyG : List Pt → ArcGeom
deriving DecidableEq, Repr

/-- One inserted layer row: the `SHAPE@` geometry and the stringified
attribute values `[str(attr) for attr in properties.values()]`. -/
structure ArcRow where
  shape : ArcGeom
  attrs : List String
deriving DecidableEq, Repr

/-- `coords = feature['geojson']['geometry']['coordinates']` of a Point record
(line 113); GeoJSON guarantees a pair for Point records, other payloads are
unreachable on the Point collection and totalized to the origin. -/
def pointCoord (f : FeatureJson) : Pt :=
  match f.geometry with
  | some g =>
      match g.coordinates with
      | .pt p => p
      | _ => (0, 0)
  | none => (0, 0)

/-- The vertex list of a LineString record (line 147); unreachable payloads
totalized to the empty list. -/
def lineCoords (f : FeatureJson) : List Pt :=
  match f.geometry with
  | some g =>
      match g.coordinates with
      | .seq ps => ps
      | _ => []
  | none => []

/-- The ring list of a Polygon record (line 182); unreachable payloads
totalized to the empty list. -/
def polyRings (f : FeatureJson) : List (List Pt) :=
  match f.geometry with
  | some g =>
      match g.coordinates with
      | .rings rs => rs
      | _ => []
  | none => []

/-- The vertex list used to build a Polygon record's arcpy geometry (lines
182-186): `polygons[0]` when there is more than one ring, else
`coordinates[0]` — the first ring either way.  Python's `[0]` presumes at
least one ring (an empty ring list would abort the run); `headD []`
totalizes that case. -/
def polygonTestRing (polygons : List (List Pt)) : List Pt :=
  if polygons.length > 1 then polygons.headD [] else polygons.headD []

/-- `[str(attr) for attr in list(feature['geojson']['properties'].values())]`. -/
def attrValues (f : FeatureJson) : List String :=
  f.properties.map (fun kv => toString kv.2)

/-- One row of `points_layer` (lines 108-116). -/
def buildPointRow (f : FeatureJson) : ArcRow :=
  ⟨.pointG (pointCoord f), attrValues f⟩

/-- One row of `lines_layer` (lines 144-151). -/
def buildLineRow (f : FeatureJson) : ArcRow :=
  ⟨.lineG (lineCoords f), attrValues f⟩

/-- One row of `polygons_layer` (lines 179-190). -/
def buildPolygonRow (f : FeatureJson) : ArcRow :=
  ⟨.polyG (polygonTestRing (polyRings f)), attrValues f⟩

/-- `arcpy.management.SelectLayerByLocation(layer, 'INTERSECT', sheets_layer)`:
the records of `layer` intersecting at least one record of `sheets_layer`,
under the abstract record-level intersection predicate `itx`. -/
def selectByLocationIntersect (itx : ArcGeom → ArcGeom → Bool)
    (sheets_layer : List ArcGeom) (layer : List ArcRow) : List ArcRow :=
  layer.filter (fun row => sheets_layer.any (itx row.shape))

/-- `arcpy.management.SelectLayerByLocation(passed_layer,
selection_type='SWITCH_SELECTION')`: the records of the same layer whose
selection state flips off, i.e. those intersecting no boundary record. -/
def switchSelection (itx : ArcGeom → ArcGeom → Bool)
    (sheets_layer : List ArcGeom) (layer : List ArcRow) : List ArcRow :=
  layer.filter (fun row => !sheets_layer.any (itx row.shape))

/-- The passed/failed selections of one geometry class. -/
structure ClassLayers where
  passed : List ArcRow
  failed : List ArcRow
deriving DecidableEq, Repr

/-- The `self.geometries[...]['layers']` slots filled by
`perform_spatial_filter`. -/
structure SpatialLayers where
  point : ClassLayers
  lineString : ClassLayers
  polygon : ClassLayers
deriving DecidableEq, Repr

/-- `perform_spatial_filter(sheets_layer)` (lines 98-196): per class, build
the in-memory layer row by row from the collection, select by intersection
with the sheets layer, then switch the selection for the failed set. -/
def perform_spatial_filter (itx : ArcGeom → ArcGeom → Bool)
    (sheets_layer : List ArcGeom) (st : Geometries) : SpatialLayers :=
  let points_layer := st.point.map buildPointRow
  let points_passed := selectByLocationIntersect itx sheets_layer points_layer
  let point_failed := switchSelection itx sheets_layer points_layer
  let lines_layer := st.lineString.map buildLineRow
  let lines_passed := selectByLocationIntersect itx sheets_layer lines_layer
  let line_failed := switchSelection itx sheets_layer lines_layer
  let polygons_layer := st.polygon.map buildPolygonRow
  let polygons_passed := selectByLocationIntersect itx sheets_layer polygons_layer
  let polygon_failed := switchSelection itx sheets_layer polygons_layer
  ⟨⟨points_passed, point_failed⟩, ⟨lines_passed, line_failed⟩,
   ⟨polygons_passed, polygon_failed⟩⟩

/-! ## Helper lemmas -/

lemma pySlice_zero (g : List (Option Pt)) (b : Nat) : pySlice g 0 b = g.take b := by
  simp [pySlice]

lemma pySlice_to_end (g : List (Option Pt)) (a : Nat) :
    pySlice g a g.length = g.drop a := by
  unfold pySlice
  rw [← List.length_drop, List.take_length]

lemma pySlice_cons_succ (x : Option Pt) (g : List (Option Pt)) (a b : Nat) :
    pySlice (x :: g) (a + 1) (b + 1) = pySlice g a b := by
  simp [pySlice, Nat.succ_sub_succ]

lemma enumFrom_none_shift (l : List (Option Pt)) : ∀ n : Nat,
    ((List.enumFrom (n + 1) l).filter (fun ip => ip.2.isNone)).map Prod.fst
      = (((List.enumFrom n l).filter (fun ip => ip.2.isNone)).map Prod.fst).map
          (· + 1) := by
  induction l with
  | nil => intro n; rfl
  | cons x t ih =>
      intro n
      show ((((n + 1), x) :: List.enumFrom (n + 2) t).filter _).map Prod.fst = _
      by_cases hx : x.isNone
      · simp [List.filter_cons, hx, ih (n + 1)]
      · simp [List.filter_cons, hx, ih (n + 1)]

lemma none_indexes_cons (x : Option Pt) (l : List (Option Pt)) :
    none_indexes (x :: l)
      = (if x.isNone then [0] else []) ++ (none_indexes l).map (· + 1) := by
  have hsh := enumFrom_none_shift l 0
  show (((0, x) :: List.enumFrom 1 l).filter _).map Prod.fst = _
  by_cases hx : x.isNone
  · simp [List.filter_cons, hx, hsh, none_indexes, List.enum]
  · simp [List.filter_cons, hx, hsh, none_indexes, List.enum]

lemma none_indexes_cons_none (l : List (Option Pt)) :
    none_indexes (none :: l) = 0 :: (none_indexes l).map (· + 1) := by
  simp [none_indexes_cons]

lemma none_indexes_cons_some (p : Pt) (l : List (Option Pt)) :
    none_indexes (some p :: l) = (none_indexes l).map (· + 1) := by
  simp [none_indexes_cons]

lemma mem_none_iff_idx (l : List (Option Pt)) :
    none ∈ l ↔ none_indexes l ≠ [] := by
  induction l with
  | nil => simp [none_indexes]
  | cons x t ih =>
      cases x with
      | none => simp [none_indexes_cons_none]
      | some p => simp [none_indexes_cons_some, ih]

lemma contains_none_iff (l : List (Option Pt)) :
    l.contains none = true ↔ none_indexes l ≠ [] := by
  rw [← mem_none_iff_idx]
  simp

lemma zip_dropLast_tail : ∀ l : List Nat, l.dropLast.zip l.tail = l.zip l.tail
  | [] => rfl
  | [_] => rfl
  | a :: b :: t => by
      have ih := zip_dropLast_tail (b :: t)
      simp only [List.tail_cons] at ih ⊢
      rw [List.dropLast_cons₂, List.zip_cons_cons, ih, List.zip_cons_cons]

lemma segsAfter_shift (x : Option Pt) (g : List (Option Pt))
    (idxs : List Nat) :
    segsAfter (x :: g) (idxs.map (· + 1)) = segsAfter g idxs := by
  induction idxs with
  | nil => rfl
  | cons i rest ih =>
      cases rest with
      | nil => simp [segsAfter]
      | cons j rest' =>
          simp only [List.map_cons] at ih ⊢
          show pySlice (x :: g) (i + 1 + 1) (j + 1) :: _ = _
          rw [pySlice_cons_succ x g (i + 1) j, ih]
          rfl

lemma ringSegments_eq_allSegs (g : List (Option Pt)) :
    ringSegments g = allSegs g := by
  induction g with
  | nil => rfl
  | cons x t ih =>
      cases x with
      | none =>
          show [] :: ringSegments t = allSegs (none :: t)
          rw [ih]
          unfold allSegs
          rw [none_indexes_cons_none]
          cases hT : none_indexes t with
          | nil => simp [segsAfter, pySlice]
          | cons i rest =>
              have hsh := segsAfter_shift none t (i :: rest)
              simp only [List.map_cons] at hsh
              simp only [List.map_cons, segsAfter, pySlice_zero, List.take_zero]
              rw [pySlice_cons_succ none t 0 i, pySlice_zero, hsh]
      | some p =>
          cases hT : none_indexes t with
          | nil =>
              have hT' : ringSegments t = [t] := by
                rw [ih]; unfold allSegs; rw [hT]
              show (match ringSegments t with
                    | [] => [[some p]]
                    | s :: ss => (some p :: s) :: ss) = allSegs (some p :: t)
              rw [hT']
              unfold allSegs
              rw [none_indexes_cons_some, hT]
              simp
          | cons i rest =>
              have hT' : ringSegments t = pySlice t 0 i :: segsAfter t (i :: rest) := by
                rw [ih]; unfold allSegs; rw [hT]
              have hsh := segsAfter_shift (some p) t (i :: rest)
              simp only [List.map_cons] at hsh
              show (match ringSegments t with
                    | [] => [[some p]]
                    | s :: ss => (some p :: s) :: ss) = allSegs (some p :: t)
              rw [hT']
              unfold allSegs
              rw [none_indexes_cons_some, hT]
              simp only [List.map_cons]
              rw [hsh]
              simp [pySlice_zero, List.take_succ_cons]

lemma segsAfter_eq_zip (g : List (Option Pt)) (l : List Nat) : ∀ i : Nat,
    segsAfter g (i :: l)
      = ((i :: l).zip l).map (fun p => pySlice g (p.1 + 1) p.2)
          ++ [g.drop ((i :: l).getLastD 0 + 1)] := by
  induction l with
  | nil => intro i; simp [segsAfter, List.getLastD]
  | cons j rest ih =>
      intro i
      show pySlice g (i + 1) j :: segsAfter g (j :: rest) = _
      rw [ih j]
      simp [List.getLastD_cons]

lemma zip_tail_getLast_snd : ∀ (l : List Nat), l ≠ [] → ∀ x : Nat,
    ∃ q, ((x :: l).zip l).getLast? = some q ∧ q.2 = l.getLastD 0
  | [], h => absurd rfl h
  | [y], _ => by
      intro x
      exact ⟨(x, y), by simp, by simp [List.getLastD]⟩
  | y :: z :: t, _ => by
      intro x
      obtain ⟨q, hq, hsnd⟩ := zip_tail_getLast_snd (z :: t) (by simp) y
      refine ⟨q, ?_, ?_⟩
      · have hzz : (y :: z :: t).zip (z :: t) = (y, z) :: (z :: t).zip t := by
          rw [List.zip_cons_cons]
        rw [List.zip_cons_cons, hzz, List.getLast?_cons_cons]
        rw [hzz] at hq
        exact hq
      · rw [hsnd]
        simp [List.getLastD_cons]

lemma splitPartLoop_tail (A : Attrs) (g : List (Option Pt)) (n : Nat) :
    ∀ (tp : List (Nat × Nat)) (s : Nat) (a b : List RingFeature),
      1 ≤ s → s + tp.length = n - 1 →
      splitPartLoop A g n (List.enumFrom s tp) (a, b)
        = (a, b ++ tp.map (fun p => ⟨A, reverse (pySlice g (p.1 + 1) p.2)⟩)
              ++ (match tp.getLast? with
                  | none => []
                  | some q => [⟨A, reverse (pySlice g (q.2 + 1) g.length)⟩])) := by
  intro tp
  induction tp with
  | nil =>
      intro s a b _ _
      simp [splitPartLoop, List.enumFrom]
  | cons q tp' ih =>
      intro s a b h1 h2
      obtain ⟨c, nx⟩ := q
      show splitPartLoop A g n ((s, c, nx) :: List.enumFrom (s + 1) tp') (a, b) = _
      rw [splitPartLoop]
      have hs0 : ¬(s = 0) := by omega
      cases tp' with
      | nil =>
          have hs2 : s = n - 2 := by
            simp only [List.length_cons, List.length_nil] at h2
            omega
          rw [if_neg hs0, if_pos hs2]
          simp [splitPartLoop, List.enumFrom, List.getLast?]
      | cons q' tp'' =>
          have hs2 : ¬(s = n - 2) := by
            simp only [List.length_cons] at h2
            omega
          rw [if_neg hs0, if_neg hs2]
          have hlen : (s + 1) + (q' :: tp'').length = n - 1 := by
            simp only [List.length_cons] at h2 ⊢
            omega
          have hIH := ih (s + 1) a
            (b ++ [(⟨A, reverse (pySlice g (c + 1) nx)⟩ : RingFeature)])
            (by omega) hlen
          show splitPartLoop A g n (List.enumFrom (s + 1) (q' :: tp''))
            (a, b ++ [(⟨A, reverse (pySlice g (c + 1) nx)⟩ : RingFeature)]) = _
          rw [hIH, List.getLast?_cons_cons]
          simp [List.append_assoc]

/-- Closed form of `splitPart`: exactly one outer feature holding the first
segment of the stream, and the later segments reversed, in order — except
that with exactly two sentinels only the first of the two inner segments is
kept (the `elif i == len(none_indexes) - 2` branch is shadowed by the
`if i == 0` branch when the pair loop has a single iteration). -/
theorem splitPart_eq (A : Attrs) (g : List (Option Pt)) :
    splitPart A g =
      ([⟨A, (allSegs g).headD []⟩],
       if (none_indexes g).length = 2 then
         (((allSegs g).drop 1).map
           (fun s => (⟨A, reverse s⟩ : RingFeature))).take 1
       else ((allSegs g).drop 1).map
           (fun s => (⟨A, reverse s⟩ : RingFeature))) := by
  by_cases hc : g.contains none = true
  · have hne : none_indexes g ≠ [] := (contains_none_iff g).mp hc
    cases hI : none_indexes g with
    | nil => exact absurd hI hne
    | cons i0 restI =>
        unfold splitPart
        rw [if_pos hc, hI]
        cases restI with
        | nil =>
            show (([(⟨A, pySlice g 0 i0⟩ : RingFeature)],
                  [(⟨A, reverse (pySlice g (i0 + 1) g.length)⟩ : RingFeature)])
                  : List RingFeature × List RingFeature) = _
            unfold allSegs
            rw [hI]
            simp [segsAfter, pySlice_to_end]
        | cons i1 restI2 =>
            have hzip : (i0 :: i1 :: restI2).dropLast.zip (i0 :: i1 :: restI2).tail
                = (i0, i1) :: (i1 :: restI2).zip restI2 := by
              rw [zip_dropLast_tail]
              rfl
            show splitPartLoop A g (i0 :: i1 :: restI2).length
              (((i0 :: i1 :: restI2).dropLast.zip (i0 :: i1 :: restI2).tail).enum)
              ([], []) = _
            rw [hzip]
            have hlen : 1 + ((i1 :: restI2).zip restI2).length
                = (i0 :: i1 :: restI2).length - 1 := by
              simp [List.length_zip]
              omega
            have hloop := splitPartLoop_tail A g (i0 :: i1 :: restI2).length
              ((i1 :: restI2).zip restI2) 1
              [(⟨A, pySlice g 0 i0⟩ : RingFeature)]
              [(⟨A, reverse (pySlice g (i0 + 1) i1)⟩ : RingFeature)]
              (le_refl 1) hlen
            show splitPartLoop A g (i0 :: i1 :: restI2).length
              ((0, (i0, i1)) :: List.enumFrom 1 ((i1 :: restI2).zip restI2))
              ([], []) = _
            have hstep : splitPartLoop A g (i0 :: i1 :: restI2).length
                ((0, (i0, i1)) :: List.enumFrom 1 ((i1 :: restI2).zip restI2))
                ([], [])
              = splitPartLoop A g (i0 :: i1 :: restI2).length
                (List.enumFrom 1 ((i1 :: restI2).zip restI2))
                ([(⟨A, pySlice g 0 i0⟩ : RingFeature)],
                 [(⟨A, reverse (pySlice g (i0 + 1) i1)⟩ : RingFeature)]) := rfl
            rw [hstep, hloop]
            unfold allSegs
            rw [hI]
            cases restI2 with
            | nil =>
                simp [segsAfter, List.zip]
            | cons r t =>
                obtain ⟨q, hq, hsnd⟩ :=
                  zip_tail_getLast_snd (r :: t) (by simp) i1
                have hseg := segsAfter_eq_zip g (i1 :: r :: t) i0
                have hlen2 : ¬((i0 :: i1 :: r :: t).length = 2) := by
                  simp
                rw [if_neg hlen2, hq]
                simp only [List.headD_cons, List.drop_one, List.tail_cons,
                  hseg, List.zip_cons_cons, List.map_append, List.map_cons]
                rw [hsnd]
                have hgl : (i0 :: i1 :: r :: t).getLastD 0
                    = (r :: t).getLastD 0 := by
                  simp [List.getLastD_cons]
                rw [hgl]
                simp [pySlice_to_end, List.append_assoc]
  · have hidx : none_indexes g = [] := by
      by_contra hne
      exact hc ((contains_none_iff g).mpr hne)
    unfold splitPart
    rw [if_neg hc]
    unfold allSegs
    rw [hidx]
    simp

lemma segsAfter_length (g : List (Option Pt)) (l : List Nat) : ∀ i : Nat,
    (segsAfter g (i :: l)).length = l.length + 1 := by
  induction l with
  | nil => intro i; rfl
  | cons j rest ih =>
      intro i
      show (pySlice g (i + 1) j :: segsAfter g (j :: rest)).length = _
      simp [ih j]

lemma allSegs_length (g : List (Option Pt)) :
    (allSegs g).length = (none_indexes g).length + 1 := by
  unfold allSegs
  cases h : none_indexes g with
  | nil => rfl
  | cons i rest => simp [segsAfter_length]

lemma splitPart_attrs (A : Attrs) (g : List (Option Pt)) (f : RingFeature)
    (hf : f ∈ (splitPart A g).1 ++ (splitPart A g).2) : f.attributes = A := by
  rw [splitPart_eq] at hf
  rcases List.mem_append.mp hf with h | h
  · rw [List.mem_singleton.mp h]
  · by_cases h2 : (none_indexes g).length = 2
    · rw [if_pos h2] at h
      have h' := List.take_subset 1 _ h
      obtain ⟨s, _, rfl⟩ := List.mem_map.mp h'
      rfl
    · rw [if_neg h2] at h
      obtain ⟨s, _, rfl⟩ := List.mem_map.mp h
      rfl

lemma partsFold_attrs (A : Attrs) (parts : List (List (Option Pt))) :
    ∀ acc : List RingFeature × List RingFeature,
      (∀ f ∈ acc.1 ++ acc.2, f.attributes = A) →
      ∀ f ∈ (parts.foldl
            (fun acc2 geometry =>
              let fs := splitPart A geometry
              (acc2.1 ++ fs.1, acc2.2 ++ fs.2)) acc).1 ++
          (parts.foldl
            (fun acc2 geometry =>
              let fs := splitPart A geometry
              (acc2.1 ++ fs.1, acc2.2 ++ fs.2)) acc).2,
        f.attributes = A := by
  induction parts with
  | nil => intro acc hacc f hf; exact hacc f hf
  | cons gpart rest ih =>
      intro acc hacc f hf
      rw [List.foldl_cons] at hf
      refine ih _ ?_ f hf
      intro f' hf'
      rcases List.mem_append.mp hf' with h | h
      · rcases List.mem_append.mp h with h' | h'
        · exact hacc f' (List.mem_append.mpr (Or.inl h'))
        · exact splitPart_attrs A gpart f' (List.mem_append.mpr (Or.inl h'))
      · rcases List.mem_append.mp h with h' | h'
        · exact hacc f' (List.mem_append.mpr (Or.inr h'))
        · exact splitPart_attrs A gpart f' (List.mem_append.mpr (Or.inr h'))

/-! ## Claim theorems: ring decomposer -/

/-- Claim C1 (code bug): the claim demands, for a stream with `k` sentinels,
exactly one outer ring and exactly `k` inner rings, and in particular that
`[A,B,C,D, SENTINEL, E,F,G, SENTINEL, H,I,J]` yields two inner rings.  The
code, evaluated at exactly that stream, produces one outer ring `[A,B,C,D]`
but only ONE inner ring (`reverse [E,F,G]`): with exactly two sentinels the
pair loop runs a single iteration in which the `i == 0` branch shadows the
`i == len(none_indexes) - 2` branch, so the segment `[H,I,J]` after the last
sentinel is silently dropped. -/
theorem c1_two_sentinel_eval :
    split_inner_polygons
      [⟨[("registry_n", 7)],
        [[some (0, 0), some (0, 1), some (1, 1), some (1, 0), none,
          some (2, 2), some (2, 3), some (3, 3), none,
          some (4, 4), some (4, 5), some (5, 5)]]⟩]
      = ([⟨[("registry_n", 7)],
           [some (0, 0), some (0, 1), some (1, 1), some (1, 0)]⟩],
         [⟨[("registry_n", 7)],
           [some (3, 3), some (2, 3), some (2, 2)]⟩]) := by decide

/-- Claim C4 (confirmed): the outer ring is exactly the vertex segment before
the first sentinel (the full stream when there is no sentinel), and every
inner ring the decomposer does produce is the exact reverse of its
corresponding source-stream segment (the `j`-th produced inner ring comes
from the `(j+1)`-st segment of the stream). -/
theorem c4_ring_contents (A : Attrs) (g : List (Option Pt)) :
    (splitPart A g).1 = [⟨A, (ringSegments g).headD []⟩] ∧
    ∀ j, j < (splitPart A g).2.length →
      ((splitPart A g).2.getD j ⟨A, []⟩).geometry
        = reverse ((ringSegments g).getD (j + 1) []) := by
  rw [splitPart_eq, ringSegments_eq_allSegs]
  refine ⟨rfl, ?_⟩
  intro j hj
  by_cases h2 : (none_indexes g).length = 2
  · rw [if_pos h2] at hj ⊢
    have hj2 := hj
    simp only [List.length_take, List.length_map, List.length_drop] at hj2
    have hj0 : j = 0 := by omega
    have h1lt : 1 < (allSegs g).length := by omega
    subst hj0
    have hs := List.getElem?_eq_getElem h1lt
    rw [List.getD_eq_getElem?_getD, List.getElem?_take_of_lt (by omega),
      List.getElem?_map, List.getElem?_drop, List.getD_eq_getElem?_getD]
    rw [show 1 + 0 = 1 from rfl, hs]
    rfl
  · rw [if_neg h2] at hj ⊢
    have hjlen : 1 + j < (allSegs g).length := by
      rw [List.length_map, List.length_drop] at hj
      omega
    have hs := List.getElem?_eq_getElem hjlen
    rw [List.getD_eq_getElem?_getD, List.getElem?_map, List.getElem?_drop,
      List.getD_eq_getElem?_getD, show j + 1 = 1 + j from by omega, hs]
    rfl

/-- Concrete instance of `c4_ring_contents` with its index hypothesis
discharged: for the one-sentinel stream `[P0, SENTINEL, P1, P2]`, the single
inner ring is the reverse of the stream's second segment. -/
theorem c4_ring_contents_witness :
    0 < (splitPart [("a", 1)] [some (0, 0), none, some (1, 1), some (2, 2)]).2.length ∧
    ((splitPart [("a", 1)]
        [some (0, 0), none, some (1, 1), some (2, 2)]).2.getD 0 ⟨[("a", 1)], []⟩).geometry
      = reverse ((ringSegments
          [some (0, 0), none, some (1, 1), some (2, 2)]).getD 1 []) :=
  ⟨by decide,
   (c4_ring_contents [("a", 1)] [some (0, 0), none, some (1, 1), some (2, 2)]).2
     0 (by decide)⟩

/-- Claim C6 (partly as stated): decomposition is total on degenerate streams
(the embedding is a total function); a stream whose very first element is the
sentinel yields the empty outer ring rather than an exception; and an empty
segment lying between two sentinels yields an inner ring feature with zero
points. -/
theorem c6_degenerate (A : Attrs) (g : List (Option Pt)) :
    (g.head? = some none → (splitPart A g).1 = [⟨A, []⟩]) ∧
    (∀ j, 1 ≤ j → j + 1 < (ringSegments g).length →
      (ringSegments g).getD j [] = [] →
      (⟨A, []⟩ : RingFeature) ∈ (splitPart A g).2) := by
  rw [splitPart_eq, ringSegments_eq_allSegs]
  constructor
  · intro hh
    cases g with
    | nil => simp at hh
    | cons x t =>
        have hx : x = none := by simpa using hh
        subst hx
        unfold allSegs
        rw [none_indexes_cons_none]
        simp [pySlice]
  · intro j hj1 hjlt hseg
    have hjk : j < (none_indexes g).length := by
      rw [allSegs_length] at hjlt
      omega
    have hjlt' : j < (allSegs g).length := by
      rw [allSegs_length]
      omega
    have hsome : (allSegs g)[j]? = some [] := by
      have hge := List.getElem?_eq_getElem hjlt'
      rw [List.getD_eq_getElem?_getD, hge] at hseg
      rw [hge]
      simpa using hseg
    by_cases h2 : (none_indexes g).length = 2
    · rw [if_pos h2]
      have hj1' : j = 1 := by omega
      subst hj1'
      have hel : (List.take 1 (List.map
          (fun s => ({ attributes := A, geometry := reverse s } : RingFeature))
          (List.drop 1 (allSegs g))))[0]? = some ⟨A, reverse []⟩ := by
        rw [List.getElem?_take_of_lt (by omega), List.getElem?_map,
          List.getElem?_drop, show 1 + 0 = 1 from rfl, hsome]
        rfl
      have hmem := List.getElem?_mem hel
      simpa [reverse] using hmem
    · rw [if_neg h2]
      have hel : (List.map
          (fun s => ({ attributes := A, geometry := reverse s } : RingFeature))
          (List.drop 1 (allSegs g)))[j - 1]? = some ⟨A, reverse []⟩ := by
        rw [List.getElem?_map, List.getElem?_drop,
          show 1 + (j - 1) = j from by omega, hsome]
        rfl
      have hmem := List.getElem?_mem hel
      simpa [reverse] using hmem

/-- Concrete instance of `c6_degenerate`, hypotheses discharged at the stream
`[SENTINEL, SENTINEL, P]`: the outer ring is empty and an empty-segment inner
ring with zero points is produced — no exception anywhere. -/
theorem c6_degenerate_witness :
    (splitPart [("a", 1)] [none, none, some (1, 1)]).1 = [⟨[("a", 1)], []⟩] ∧
    (⟨[("a", 1)], []⟩ : RingFeature) ∈ (splitPart [("a", 1)] [none, none, some (1, 1)]).2 :=
  ⟨(c6_degenerate [("a", 1)] [none, none, some (1, 1)]).1 (by decide),
   (c6_degenerate [("a", 1)] [none, none, some (1, 1)]).2 1 (by decide)
     (by decide) (by decide)⟩

/-- Claim C8 (confirmed): every ring feature (the outer and each inner)
produced by decomposing one source polygon row carries exactly that row's
attribute tuple — the observable consequence of the code storing the one
`attributes = row[1:]` reference in every appended dict, so all rings of one
source feature have identical attributes. -/
theorem c8_attrs_shared (row : PolygonRow) (f : RingFeature)
    (hf : f ∈ (split_inner_polygons [row]).1 ++ (split_inner_polygons [row]).2) :
    f.attributes = row.attributes := by
  have hrw : split_inner_polygons [row]
      = row.parts.foldl
          (fun acc2 geometry =>
            let fs := splitPart row.attributes geometry
            (acc2.1 ++ fs.1, acc2.2 ++ fs.2)) ([], []) := rfl
  rw [hrw] at hf
  exact partsFold_attrs row.attributes row.parts ([], []) (by simp) f hf

/-- Concrete instance of `c8_attrs_shared`: the inner ring produced from a
one-sentinel row carries the row's attributes. -/
theorem c8_attrs_shared_witness :
    (⟨[("snm", 3)], [some (2, 2)]⟩ : RingFeature)
        ∈ (split_inner_polygons
            [⟨[("snm", 3)], [[some (0, 0), none, some (2, 2)]]⟩]).1 ++
          (split_inner_polygons
            [⟨[("snm", 3)], [[some (0, 0), none, some (2, 2)]]⟩]).2 ∧
    (⟨[("snm", 3)], [some (2, 2)]⟩ : RingFeature).attributes = [("snm", 3)] :=
  ⟨by decide,
   c8_attrs_shared ⟨[("snm", 3)], [[some (0, 0), none, some (2, 2)]]⟩
     ⟨[("snm", 3)], [some (2, 2)]⟩ (by decide)⟩

/-! ## Claim theorems: geometry normalizer -/

/-- Claim C2 (code bug): exploding the spec's scenario-4 cluster
`{coords: [(1,2),(3,4)], attrs: {"depth": 5}}` does yield exactly two Point
features, each with the cluster's attribute mapping — but BOTH carry the
coordinates of the LAST member point `(3,4)`, because every appended entry
references the one `feature_template` dict that the loop keeps mutating in
place; the claim requires the two features to carry `(1,2)` and `(3,4)`
respectively. -/
theorem c2_multipoint_eval :
    (get_enc_geometries
        [⟨some ⟨"MultiPoint", .seq [(1, 2), (3, 4)]⟩, [("depth", 5)]⟩]).1.point
      = [⟨some ⟨"Point", .pt (3, 4)⟩, [("depth", 5)]⟩,
         ⟨some ⟨"Point", .pt (3, 4)⟩, [("depth", 5)]⟩] := by decide

lemma foldl_setPointCoords_gtype (pts : List Pt) : ∀ t : FeatureJson,
    geom_type t = "Point" → geom_type (pts.foldl setPointCoords t) = "Point" := by
  induction pts with
  | nil => intro t ht; exact ht
  | cons p rest ih =>
      intro t ht
      rw [List.foldl_cons]
      refine ih _ ?_
      cases hg : t.geometry with
      | none => rw [geom_type, hg] at ht; exact absurd ht (by decide)
      | some g =>
          have : g.gtype = "Point" := by rwa [geom_type, hg] at ht
          rw [setPointCoords, hg, geom_type]
          exact this

lemma explodeMultiPoint_gtype (f : FeatureJson) (hf : geom_type f = "MultiPoint") :
    ∀ x ∈ explodeMultiPoint f, geom_type x = "Point" := by
  intro x hx
  have hx' := List.eq_of_mem_replicate hx
  subst hx'
  refine foldl_setPointCoords_gtype _ _ ?_
  cases hg : f.geometry with
  | none => rw [geom_type, hg] at hf; exact absurd hf (by decide)
  | some g => rw [setPointType, hg, geom_type]

lemma processFeature_wellTyped (st : Geometries × List String) (f : FeatureJson)
    (hp : ∀ x ∈ st.1.point, geom_type x = "Point")
    (hl : ∀ x ∈ st.1.lineString, geom_type x = "LineString")
    (hg : ∀ x ∈ st.1.polygon, geom_type x = "Polygon") :
    (∀ x ∈ (processFeature st f).1.point, geom_type x = "Point") ∧
    (∀ x ∈ (processFeature st f).1.lineString, geom_type x = "LineString") ∧
    (∀ x ∈ (processFeature st f).1.polygon, geom_type x = "Polygon") := by
  unfold processFeature
  by_cases h1 : geom_type f = "Point"
  · refine ⟨?_, by simp [h1]; exact hl, by simp [h1]; exact hg⟩
    simp only [h1, if_pos]
    intro x hx
    rcases List.mem_append.mp hx with h | h
    · exact hp x h
    · rw [List.mem_singleton.mp h]; exact h1
  by_cases h2 : geom_type f = "LineString"
  · refine ⟨by simp [h1, h2]; exact hp, ?_, by simp [h1, h2]; exact hg⟩
    simp only [h1, h2, if_neg, if_pos]
    intro x hx
    rcases List.mem_append.mp hx with h | h
    · exact hl x h
    · rw [List.mem_singleton.mp h]; exact h2
  by_cases h3 : geom_type f = "Polygon"
  · refine ⟨by simp [h1, h2, h3]; exact hp, by simp [h1, h2, h3]; exact hl, ?_⟩
    simp only [h1, h2, h3, if_neg, if_pos]
    intro x hx
    rcases List.mem_append.mp hx with h | h
    · exact hg x h
    · rw [List.mem_singleton.mp h]; exact h3
  by_cases h4 : geom_type f = "MultiPoint"
  · refine ⟨?_, by simp [h1, h2, h3, h4]; exact hl, by simp [h1, h2, h3, h4]; exact hg⟩
    simp only [h1, h2, h3, h4, if_neg, if_pos]
    intro x hx
    rcases List.mem_append.mp hx with h | h
    · exact hp x h
    · exact explodeMultiPoint_gtype f h4 x h
  by_cases h5 : geom_type f ≠ ""
  · exact ⟨by simp [h1, h2, h3, h4, h5]; exact hp,
      by simp [h1, h2, h3, h4, h5]; exact hl,
      by simp [h1, h2, h3, h4, h5]; exact hg⟩
  · exact ⟨by simp [h1, h2, h3, h4, h5]; exact hp,
      by simp [h1, h2, h3, h4, h5]; exact hl,
      by simp [h1, h2, h3, h4, h5]; exact hg⟩

lemma get_enc_geometries_fold_wellTyped (records : List FeatureJson) :
    ∀ st : Geometries × List String,
      (∀ x ∈ st.1.point, geom_type x = "Point") →
      (∀ x ∈ st.1.lineString, geom_type x = "LineString") →
      (∀ x ∈ st.1.polygon, geom_type x = "Polygon") →
      (∀ x ∈ (records.foldl processFeature st).1.point, geom_type x = "Point") ∧
      (∀ x ∈ (records.foldl processFeature st).1.lineString,
        geom_type x = "LineString") ∧
      (∀ x ∈ (records.foldl processFeature st).1.polygon,
        geom_type x = "Polygon") := by
  induction records with
  | nil => intro st hp hl hg; exact ⟨hp, hl, hg⟩
  | cons f rest ih =>
      intro st hp hl hg
      rw [List.foldl_cons]
      obtain ⟨hp', hl', hg'⟩ := processFeature_wellTyped st f hp hl hg
      exact ih (processFeature st f) hp' hl' hg'

/-- Claim C7, corrected (the claim as frozen is refuted by
`c7_empty_kind_eval`): normalization only ever adds features of the three
supported kinds — every feature sitting in the Point / LineString / Polygon
collection after a run carries that geometry type, with MultiPoint records
exploded into Point features — and a record of any OTHER NON-EMPTY geometry
kind is skipped with an `Unknown feature type` diagnostic, while a record
with an empty/null geometry kind is skipped SILENTLY; no input aborts the
run (the embedding is a total function). -/
theorem c7_kinds_amended :
    (∀ records : List FeatureJson,
      (∀ x ∈ (get_enc_geometries records).1.point, geom_type x = "Point") ∧
      (∀ x ∈ (get_enc_geometries records).1.lineString,
        geom_type x = "LineString") ∧
      (∀ x ∈ (get_enc_geometries records).1.polygon, geom_type x = "Polygon")) ∧
    (∀ (st : Geometries × List String) (f : FeatureJson),
      geom_type f ∉ (["Point", "LineString", "Polygon", "MultiPoint"] : List String) →
      (processFeature st f).1 = st.1 ∧
      (processFeature st f).2
        = if geom_type f = "" then st.2
          else st.2 ++ ["Unknown feature type: " ++ geom_type f]) := by
  constructor
  · intro records
    exact get_enc_geometries_fold_wellTyped records (⟨[], [], []⟩, [])
      (by simp) (by simp) (by simp)
  · intro st f hf
    simp only [List.mem_cons, List.mem_singleton] at hf
    push_neg at hf
    obtain ⟨h1, h2, h3, h4⟩ := hf
    by_cases h5 : geom_type f = ""
    · constructor
      · simp [processFeature, h1, h2, h3, h4, h5]
      · simp [processFeature, h1, h2, h3, h4, h5]
    · constructor
      · simp [processFeature, h1, h2, h3, h4, h5]
      · simp [processFeature, h1, h2, h3, h4, h5]

/-- Concrete instance of `c7_kinds_amended` with the unsupported-kind
hypothesis discharged at a `MultiLineString` record: the collections are
untouched and exactly one diagnostic is printed. -/
theorem c7_kinds_amended_witness :
    (processFeature ((⟨[], [], []⟩ : Geometries), ([] : List String))
        ⟨some ⟨"MultiLineString", .seq []⟩, []⟩).1 = (⟨[], [], []⟩ : Geometries) ∧
    (processFeature ((⟨[], [], []⟩ : Geometries), ([] : List String))
        ⟨some ⟨"MultiLineString", .seq []⟩, []⟩).2
      = ["Unknown feature type: MultiLineString"] := by
  have h := c7_kinds_amended.2 ((⟨[], [], []⟩ : Geometries), ([] : List String))
    ⟨some ⟨"MultiLineString", .seq []⟩, []⟩ (by decide)
  refine ⟨h.1, ?_⟩
  rw [h.2]
  decide

/-- Claim C7's counterexample: a record whose geometry is empty (JSON null)
is skipped, but WITHOUT any diagnostic — the `if geom_type:` guard of line 50
is falsy — refuting the frozen claim that "a record of any other or empty
geometry kind is skipped with a diagnostic". -/
theorem c7_empty_kind_eval :
    processFeature ((⟨[], [], []⟩ : Geometries), ([] : List String))
        ⟨none, [("a", 1)]⟩
      = ((⟨[], [], []⟩ : Geometries), ([] : List String)) := by decide

/-! ## Claim theorems: spatial classifier -/

lemma filter_partition_length {α : Type} (p : α → Bool) (l : List α) :
    (l.filter p).length + (l.filter (fun x => !p x)).length = l.length := by
  induction l with
  | nil => rfl
  | cons x t ih =>
      by_cases hx : p x <;> simp [List.filter_cons, hx] <;> omega

lemma filter_partition_count {α : Type} [DecidableEq α] (p : α → Bool)
    (l : List α) (a : α) :
    (l.filter p).count a + (l.filter (fun x => !p x)).count a = l.count a := by
  induction l with
  | nil => rfl
  | cons x t ih =>
      by_cases hxa : x = a
      · subst hxa
        by_cases hx : p x <;>
          simp [List.filter_cons, hx, List.count_cons, -List.count_filter] <;>
          omega
      · by_cases hx : p x <;>
          simp [List.filter_cons, hx, List.count_cons, hxa, ih,
            -List.count_filter]

lemma filter_idem {α : Type} (p : α → Bool) (l : List α) :
    (l.filter p).filter p = l.filter p ∧
    (l.filter p).filter (fun x => !p x) = [] := by
  induction l with
  | nil => exact ⟨rfl, rfl⟩
  | cons x t ih =>
      by_cases hx : p x <;> simp [List.filter_cons, hx, ih.1, ih.2]

/-- Claim C3 (confirmed): for every intersection predicate, boundary
reference and input collections, the classification of each of the three
geometry classes is an exhaustive and disjoint partition of the built layer —
`|passed| + |failed| = |collection|`, and record-for-record each layer row is
distributed between passed and failed with nothing dropped (the per-value
multiplicities add up). -/
theorem c3_partition (itx : ArcGeom → ArcGeom → Bool) (sheets : List ArcGeom)
    (st : Geometries) :
    ((perform_spatial_filter itx sheets st).point.passed.length
        + (perform_spatial_filter itx sheets st).point.failed.length
        = st.point.length
      ∧ ∀ row : ArcRow,
          (perform_spatial_filter itx sheets st).point.passed.count row
            + (perform_spatial_filter itx sheets st).point.failed.count row
            = (st.point.map buildPointRow).count row) ∧
    ((perform_spatial_filter itx sheets st).lineString.passed.length
        + (perform_spatial_filter itx sheets st).lineString.failed.length
        = st.lineString.length
      ∧ ∀ row : ArcRow,
          (perform_spatial_filter itx sheets st).lineString.passed.count row
            + (perform_spatial_filter itx sheets st).lineString.failed.count row
            = (st.lineString.map buildLineRow).count row) ∧
    ((perform_spatial_filter itx sheets st).polygon.passed.length
        + (perform_spatial_filter itx sheets st).polygon.failed.length
        = st.polygon.length
      ∧ ∀ row : ArcRow,
          (perform_spatial_filter itx sheets st).polygon.passed.count row
            + (perform_spatial_filter itx sheets st).polygon.failed.count row
            = (st.polygon.map buildPolygonRow).count row) := by
  refine ⟨⟨?_, ?_⟩, ⟨?_, ?_⟩, ⟨?_, ?_⟩⟩
  · show ((st.point.map buildPointRow).filter _).length
        + ((st.point.map buildPointRow).filter _).length = _
    rw [filter_partition_length]
    exact List.length_map ..
  · intro row
    exact filter_partition_count _ (st.point.map buildPointRow) row
  · show ((st.lineString.map buildLineRow).filter _).length
        + ((st.lineString.map buildLineRow).filter _).length = _
    rw [filter_partition_length]
    exact List.length_map ..
  · intro row
    exact filter_partition_count _ (st.lineString.map buildLineRow) row
  · show ((st.polygon.map buildPolygonRow).filter _).length
        + ((st.polygon.map buildPolygonRow).filter _).length = _
    rw [filter_partition_length]
    exact List.length_map ..
  · intro row
    exact filter_partition_count _ (st.polygon.map buildPolygonRow) row

/-- Claim C5 (confirmed): against an empty boundary reference every feature of
every class fails and none passes — `|passed| = 0` and
`|failed| = |collection|` for each of the three geometry classes; the run
completes normally (this is a policy, not an error). -/
theorem c5_empty_boundary (itx : ArcGeom → ArcGeom → Bool) (st : Geometries) :
    ((perform_spatial_filter itx [] st).point.passed = []
      ∧ (perform_spatial_filter itx [] st).point.failed.length = st.point.length) ∧
    ((perform_spatial_filter itx [] st).lineString.passed = []
      ∧ (perform_spatial_filter itx [] st).lineString.failed.length
          = st.lineString.length) ∧
    ((perform_spatial_filter itx [] st).polygon.passed = []
      ∧ (perform_spatial_filter itx [] st).polygon.failed.length
          = st.polygon.length) := by
  refine ⟨⟨?_, ?_⟩, ⟨?_, ?_⟩, ⟨?_, ?_⟩⟩ <;>
    simp [perform_spatial_filter, selectByLocationIntersect, switchSelection]

/-- Claim C9 (confirmed): classification is deterministic and idempotent —
re-selecting the already-passed sub-collection of any class against the same
boundary reference under the same intersection predicate re-passes every
feature and fails none. -/
theorem c9_idempotent (itx : ArcGeom → ArcGeom → Bool) (sheets : List ArcGeom)
    (st : Geometries) :
    (selectByLocationIntersect itx sheets
          (perform_spatial_filter itx sheets st).point.passed
        = (perform_spatial_filter itx sheets st).point.passed
      ∧ switchSelection itx sheets
          (perform_spatial_filter itx sheets st).point.passed = []) ∧
    (selectByLocationIntersect itx sheets
          (perform_spatial_filter itx sheets st).lineString.passed
        = (perform_spatial_filter itx sheets st).lineString.passed
      ∧ switchSelection itx sheets
          (perform_spatial_filter itx sheets st).lineString.passed = []) ∧
    (selectByLocationIntersect itx sheets
          (perform_spatial_filter itx sheets st).polygon.passed
        = (perform_spatial_filter itx sheets st).polygon.passed
      ∧ switchSelection itx sheets
          (perform_spatial_filter itx sheets st).polygon.passed = []) := by
  exact ⟨filter_idem _ (st.point.map buildPointRow),
    filter_idem _ (st.lineString.map buildLineRow),
    filter_idem _ (st.polygon.map buildPolygonRow)⟩

/-- Claim C10 (confirmed): the arcpy geometry that a Polygon feature is tested
with is built solely from the first ring of its coordinate array — both
branches of lines 183-186 read ring `[0]` — so the built layer row, and hence
the feature's pass/fail classification under any intersection predicate and
boundary reference, is unchanged by adding or removing hole rings. -/
theorem c10_first_ring (itx : ArcGeom → ArcGeom → Bool) (sheets : List ArcGeom)
    (gt : String) (props : Attrs) (r : List Pt) (rest rest' : List (List Pt)) :
    polygonTestRing (r :: rest) = r ∧
    buildPolygonRow ⟨some ⟨gt, .rings (r :: rest)⟩, props⟩
      = buildPolygonRow ⟨some ⟨gt, .rings (r :: rest')⟩, props⟩ ∧
    sheets.any (itx (buildPolygonRow ⟨some ⟨gt, .rings (r :: rest)⟩, props⟩).shape)
      = sheets.any
          (itx (buildPolygonRow ⟨some ⟨gt, .rings (r :: rest')⟩, props⟩).shape) := by
  have h1 : ∀ rs : List (List Pt), polygonTestRing (r :: rs) = r := by
    intro rs
    unfold polygonTestRing
    rw [ite_self]
    rfl
  have h2 : buildPolygonRow ⟨some ⟨gt, .rings (r :: rest)⟩, props⟩
      = buildPolygonRow ⟨some ⟨gt, .rings (r :: rest')⟩, props⟩ := by
    unfold buildPolygonRow polyRings
    rw [show (⟨some ⟨gt, .rings (r :: rest)⟩, props⟩ : FeatureJson).geometry
        = some ⟨gt, .rings (r :: rest)⟩ from rfl]
    simp only [h1]
    rfl
  exact ⟨h1 rest, h2, by rw [h2]⟩

end CsfPrf
